import Mathlib

/-!
Verification of the content-acquisition core of the LM-backend service
(`src/app.py`): URL parsing, caption normalization, transcript selection,
generative-reply parsing, and the orchestration fallback chain.

Python strings are modelled as `List Char` (wrapped in `String` at the
boundaries); dictionaries with a `"status"` key are modelled as inductive
result types; external collaborators (YouTube metadata API, transcript
provider, Gemini) are modelled as explicit inputs.
-/

/-! ### Basic string/list utilities modelling Python primitives -/

/-- `startsWithSeq pat l` is true iff `pat` is a prefix of `l`
(models Python `str.startswith` on character lists). -/
def startsWithSeq : List Char → List Char → Bool
  | [], _ => true
  | _ :: _, [] => false
  | p :: ps, c :: cs => p = c && startsWithSeq ps cs

/-- `containsSeq pat l` is true iff `pat` occurs as a contiguous
subsequence of `l` (models the Python `in` operator on strings). -/
def containsSeq (pat : List Char) : List Char → Bool
  | [] => startsWithSeq pat []
  | c :: rest => startsWithSeq pat (c :: rest) || containsSeq pat rest

/-- Models Python `str.split(sep)` for a single-character separator:
splits at every occurrence, keeping empty pieces; `""` yields `[""]`. -/
def splitOnChar (c : Char) : List Char → List (List Char)
  | [] => [[]]
  | a :: rest =>
    match splitOnChar c rest with
    | [] => [[a]]
    | h :: t => if a = c then [] :: h :: t else (a :: h) :: t

/-- Split at the first occurrence of `c` (exclusive); `none` when `c`
is absent.  Models Python `str.split(sep, 1)` when it actually splits. -/
def splitFirst (c : Char) : List Char → Option (List Char × List Char)
  | [] => none
  | a :: rest =>
    if a = c then some ([], rest)
    else (splitFirst c rest).map (fun pq => (a :: pq.1, pq.2))

/-- The part of `l` before the first occurrence of `c` (all of `l` when
`c` is absent). -/
def takeUntil (c : Char) (l : List Char) : List Char := l.takeWhile (· ≠ c)

/-- The part of `l` after the first occurrence of the pattern `pat`;
`none` when `pat` does not occur. -/
def afterSeq (pat : List Char) : List Char → Option (List Char)
  | [] => if startsWithSeq pat [] then some [] else none
  | c :: rest =>
    if startsWithSeq pat (c :: rest) then some ((c :: rest).drop pat.length)
    else afterSeq pat rest

/-- Models Python `sep.join(pieces)`. -/
def joinWith (sep : List Char) : List (List Char) → List Char
  | [] => []
  | [x] => x
  | x :: y :: t => x ++ sep ++ joinWith sep (y :: t)

/-- The whitespace characters stripped by Python `str.strip()`
(ASCII portion). -/
def isPyWs (c : Char) : Bool :=
  c = ' ' || c = '\t' || c = '\n' || c = '\r' || c = '\x0b' || c = '\x0c'

/-- Models Python `str.strip()`: removes leading and trailing whitespace. -/
def pyStrip (l : List Char) : List Char :=
  (((l.dropWhile isPyWs).reverse.dropWhile isPyWs)).reverse

/-- Models Python `str.isdigit()` (ASCII digits): true iff the string is
nonempty and every character is a digit. -/
def pyIsDigit (l : List Char) : Bool :=
  !l.isEmpty && l.all (·.isDigit)

/-- Models Python `html.unescape` restricted to the basic named character
references (with trailing semicolon) and `&#39;`.  On ampersand-free text
it is the identity, exactly like the library function. -/
def htmlUnescape : List Char → List Char
  | [] => []
  | '&' :: 'a' :: 'm' :: 'p' :: ';' :: rest => '&' :: htmlUnescape rest
  | '&' :: 'l' :: 't' :: ';' :: rest => '<' :: htmlUnescape rest
  | '&' :: 'g' :: 't' :: ';' :: rest => '>' :: htmlUnescape rest
  | '&' :: 'q' :: 'u' :: 'o' :: 't' :: ';' :: rest => '"' :: htmlUnescape rest
  | '&' :: '#' :: '3' :: '9' :: ';' :: rest => '\'' :: htmlUnescape rest
  | c :: rest => c :: htmlUnescape rest

/-! ### Caption Normalizer (`clean_srt_to_plain_text`, src/app.py:182-213) -/

/-- The `'-->'` time-range separator test (`'-->' in line`). -/
def containsArrow (l : List Char) : Bool := containsSeq ['-', '-', '>'] l

/-- The body of the scanning loop of `clean_srt_to_plain_text`: iterates
over the lines, skipping (with `continue`) empty lines, digit-only lines
and timestamp lines, and appending the HTML-entity-decoded remaining
lines; mirrors the source's while-loop, including its redundant second
non-emptiness test. -/
def cleanLoop : List (List Char) → List (List Char)
  | [] => []
  | l :: ls =>
    let line := pyStrip l
    if line.isEmpty then cleanLoop ls
    else if pyIsDigit line then cleanLoop ls
    else if containsArrow line then cleanLoop ls
    else if !line.isEmpty then htmlUnescape line :: cleanLoop ls
    else cleanLoop ls

/-- Embedding of `clean_srt_to_plain_text` (src/app.py:182-213): split on
newlines, scan with `cleanLoop`, join the accumulator with single spaces. -/
def clean_srt_to_plain_text (srt_content : String) : String :=
  ⟨joinWith [' '] (cleanLoop (splitOnChar '\n' srt_content.data))⟩

/-- A line survives the normalizer's scan iff, after trimming, it is
nonempty, not purely numeric, and free of the time-range separator. -/
def keepLine (l : List Char) : Bool :=
  !(pyStrip l).isEmpty && !pyIsDigit (pyStrip l) && !containsArrow (pyStrip l)

/-- The Caption Normalizer as the spec states it: discard empty, numeric
and timestamp lines, HTML-entity-decode the remaining lines in order, and
join them with single spaces. -/
def cleanSpec (srt_content : String) : String :=
  ⟨joinWith [' ']
    (((splitOnChar '\n' srt_content.data).filter keepLine).map
      (fun l => htmlUnescape (pyStrip l)))⟩

/-- "Already plain text" exactly as claim C9 words it: no purely numeric
lines and no `'-->'` time-range tokens. -/
def claimPlain (s : String) : Bool :=
  (splitOnChar '\n' s.data).all
    (fun l => !pyIsDigit (pyStrip l) && !containsArrow l)

/-- Plain text whose lines are additionally ampersand-free, so that HTML
entity decoding is the identity on them. -/
def plainAmpFree (s : String) : Bool :=
  (splitOnChar '\n' s.data).all
    (fun l => l.all (· ≠ '&') && !pyIsDigit (pyStrip l) && !containsArrow l)

/-- "Unchanged modulo whitespace joining": the trimmed nonempty lines
joined by single spaces. -/
def wsJoinPlain (s : String) : String :=
  ⟨joinWith [' ']
    (((splitOnChar '\n' s.data).filter (fun l => !(pyStrip l).isEmpty)).map pyStrip)⟩

/-! ### URL Parser (`extract_video_id`, src/app.py:34-49) -/

/-- The Python `in` operator on strings. -/
def pyIn (pat s : String) : Bool := containsSeq pat.data s.data

/-- Models `urllib.parse.urlparse(url).query`: the part after the first
`'?'` of the pre-fragment portion (percent-decoding is not modelled; no
claim depends on it). -/
def urlQuery (l : List Char) : List Char :=
  match splitFirst '?' (takeUntil '#' l) with
  | none => []
  | some pq => pq.2

/-- Models `urllib.parse.parse_qs(query)['v']` with default options:
fields split on `'&'`, each split on the first `'='`; fields without `'='`
or with an empty value are dropped; returns the values whose key is `v`
in order (the key `'v' in query_params` holds iff this list is nonempty). -/
def parse_qs_v (query : List Char) : List (List Char) :=
  (splitOnChar '&' query).filterMap (fun f =>
    match splitFirst '=' f with
    | none => none
    | some kv => if kv.2 = [] then none else if kv.1 = ['v'] then some kv.2 else none)

/-- Embedding of `extract_video_id` (src/app.py:34-49).  Branches on the
substring tests of the source; the `ValueError` raises are modelled as
`Except.error` carrying the source's messages. -/
def extract_video_id (youtube_url : String) : Except String String :=
  if pyIn "youtu.be" youtube_url then
    Except.ok ⟨(splitOnChar '?' ((splitOnChar '/' youtube_url.data).getLastD [])).headD []⟩
  else if pyIn "youtube.com/watch" youtube_url then
    match parse_qs_v (urlQuery youtube_url.data) with
    | [] => Except.error "Invalid YouTube URL: missing video ID parameter"
    | v :: _ => Except.ok ⟨v⟩
  else
    Except.error "Invalid YouTube URL format. Please use a standard YouTube URL"

/-- Modelled from the spec: the host component of a URL (the part after
`"://"` up to the first `/`, `?` or `#`), used to state what a
"short-link form" and a "canonical-watch form" URL are. -/
def hostOf (l : List Char) : List Char :=
  let rest := match afterSeq "://".data l with
    | some r => r
    | none => l
  rest.takeWhile (fun c => c != '/' && c != '?' && c != '#')

/-- Modelled from the spec: the part of a URL following its host. -/
def afterHost (l : List Char) : List Char :=
  let rest := match afterSeq "://".data l with
    | some r => r
    | none => l
  rest.dropWhile (fun c => c != '/' && c != '?' && c != '#')

/-- Modelled from the spec: a short-link form URL (host `youtu.be`). -/
def specIsShortLink (url : String) : Bool := hostOf url.data == "youtu.be".data

/-- Modelled from the spec: a canonical-watch form URL (a YouTube host
with a `/watch` path). -/
def specIsWatchForm (url : String) : Bool :=
  (hostOf url.data == "youtube.com".data
    || hostOf url.data == "www.youtube.com".data
    || hostOf url.data == "m.youtube.com".data)
  && startsWithSeq "/watch".data (afterHost url.data)

/-- Modelled from the spec: the value of the `v` query parameter of a URL,
when present. -/
def specV (url : String) : Option (List Char) :=
  (parse_qs_v (urlQuery url.data)).head?

/-- Modelled from the spec: the short-link identifier, "the last path
segment, stripped of any trailing query string". -/
def specShortId (url : String) : String :=
  ⟨takeUntil '?' ((splitOnChar '/' url.data).getLastD [])⟩

/-! ### Primary transcript lookup (`get_video_transcript`, src/app.py:80-114) -/

/-- The Python exceptions distinguished by the source's handlers. -/
inductive PyExc
  | transcriptsDisabled
  | noTranscriptFound
  | indexError
  | otherError (msg : String)
deriving DecidableEq, Repr

/-- Models `str(e)` for the modelled exceptions. -/
def PyExc.message : PyExc → String
  | .transcriptsDisabled => "Transcripts are disabled for this video"
  | .noTranscriptFound => "No transcript found"
  | .indexError => "list index out of range"
  | .otherError m => m

/-- One transcript track as offered by the external transcript provider:
its language code, the outcome of fetching it, and the outcome of
translating it to English and fetching the translation (the outer
`Except` is the `translate` call, the inner one the subsequent `fetch`). -/
structure TranscriptTrack where
  language_code : String
  fetch : Except PyExc (List String)
  translate_en : Except PyExc (Except PyExc (List String))

/-- Outcome of an acquisition strategy: the `{"status": ..., ...}` dicts
returned by `get_video_transcript` and `get_captions_from_youtube_api`. -/
inductive StratResult
  | success (text : String)
  | error (msg : String)
deriving DecidableEq, Repr

/-- The `NoTranscript` message of the source. -/
def noTranscriptMsg : String :=
  "No transcript available for this video. Please choose a video with captions."

/-- The outer `except` clauses of `get_video_transcript`:
`(TranscriptsDisabled, NoTranscriptFound)` yield the `NoTranscript`
message, any other exception the generic retrieval error. -/
def transcriptOuterHandler (e : PyExc) : StratResult :=
  match e with
  | .transcriptsDisabled => .error noTranscriptMsg
  | .noTranscriptFound => .error noTranscriptMsg
  | e => .error ("Error retrieving transcript: " ++ e.message)

/-- `transcript.fetch()` followed by `' '.join(part['text'] ...)`, with
fetch exceptions reaching the outer handlers. -/
def finishFetch (fr : Except PyExc (List String)) : StratResult :=
  match fr with
  | .ok parts => .success (String.intercalate " " parts)
  | .error e => transcriptOuterHandler e

/-- Embedding of `get_video_transcript` (src/app.py:80-114).  The input is
the outcome of `YouTubeTranscriptApi.list_transcripts`.  `find_transcript`
is modelled as the first track with a matching language code; the bare
`except:` clauses fall through when no match exists; `transcript_list[0]`
on an empty listing raises `IndexError`, which the inner handler (like any
`IndexError` escaping `translate`) maps to the `NoTranscript` message. -/
def get_video_transcript (listing : Except PyExc (List TranscriptTrack)) : StratResult :=
  match listing with
  | .error e => transcriptOuterHandler e
  | .ok transcript_list =>
    match transcript_list.find? (fun t => t.language_code == "en") with
    | some transcript => finishFetch transcript.fetch
    | none =>
      match (transcript_list.find? (fun t => t.language_code == "en-US")).orElse
          (fun _ => transcript_list.find? (fun t => t.language_code == "en-GB")) with
      | some transcript => finishFetch transcript.fetch
      | none =>
        match transcript_list with
        | [] => .error noTranscriptMsg
        | t :: _ =>
          match t.translate_en with
          | .error PyExc.indexError => .error noTranscriptMsg
          | .error e => transcriptOuterHandler e
          | .ok fr => finishFetch fr

/-- The track-selection policy as the spec states it: prefer an exact `en`
track, else `en-US`, else `en-GB`. -/
def selectEnglishTrack (tracks : List TranscriptTrack) : Option TranscriptTrack :=
  ((tracks.find? (fun t => t.language_code == "en")).orElse
    (fun _ => tracks.find? (fun t => t.language_code == "en-US"))).orElse
    (fun _ => tracks.find? (fun t => t.language_code == "en-GB"))

/-- Spec-side outcome of fetching a selected track. -/
def specFetch (fr : Except PyExc (List String)) : StratResult :=
  match fr with
  | .ok parts => .success (String.intercalate " " parts)
  | .error e =>
    if e = .transcriptsDisabled ∨ e = .noTranscriptFound then .error noTranscriptMsg
    else .error ("Error retrieving transcript: " ++ e.message)

/-- The primary transcript strategy as amended claim C7 states it: apply
the selection policy; with no tracks at all fail with `NoTranscript`;
translate the first track otherwise, where translation failures raised as
index/not-found/disabled signals yield `NoTranscript` and any other
failure the generic retrieval error. -/
def transcriptSpec (listing : Except PyExc (List TranscriptTrack)) : StratResult :=
  match listing with
  | .error e =>
    if e = .transcriptsDisabled ∨ e = .noTranscriptFound then .error noTranscriptMsg
    else .error ("Error retrieving transcript: " ++ e.message)
  | .ok tracks =>
    match selectEnglishTrack tracks with
    | some t => specFetch t.fetch
    | none =>
      match tracks.head? with
      | none => .error noTranscriptMsg
      | some t =>
        match t.translate_en with
        | .ok fr => specFetch fr
        | .error e =>
          if e = .indexError ∨ e = .transcriptsDisabled ∨ e = .noTranscriptFound then
            .error noTranscriptMsg
          else .error ("Error retrieving transcript: " ++ e.message)

/-- A non-English track whose machine translation fails with a generic
provider error, used to settle claim C7. -/
def frTrack : TranscriptTrack :=
  { language_code := "fr"
    fetch := .ok ["bonjour"]
    translate_en := .error (.otherError "translation service down") }

/-! ### Quiz Synthesizer response parsing
(`generate_quiz`, src/app.py:246-265, and `generate_quiz_from_description`,
src/app.py:303-322 — the two copies are identical) -/

/-- Outcome of quiz generation (`{"status": ..., "quiz"/"message": ...}`);
the parsed JSON payload is the type parameter `Q`. -/
inductive QuizResult (Q : Type)
  | success (quiz : Q)
  | error (msg : String)
deriving DecidableEq

/-- Index of the first occurrence of `c` in `l`, if any. -/
def firstIdxAux (c : Char) : List Char → Option Nat
  | [] => none
  | a :: rest => if a = c then some 0 else (firstIdxAux c rest).map (· + 1)

/-- Models Python `str.find(ch)`: index of the first occurrence, `-1` when
absent. -/
def pyFindChar (c : Char) (l : List Char) : Int :=
  match firstIdxAux c l with
  | some i => (i : Int)
  | none => -1

/-- Models Python `str.rfind(ch)`: index of the last occurrence, `-1` when
absent. -/
def pyRfindChar (c : Char) (l : List Char) : Int :=
  match firstIdxAux c l.reverse with
  | some i => ((l.length - 1 - i : Nat) : Int)
  | none => -1

/-- The `response_text[start_idx:end_idx]` slice of the source, with
`start_idx = find('[')` and `end_idx = rfind(']') + 1`, for the
nonnegative indices reached there (Python slice semantics). -/
def geminiJsonStr (response_text : String) : String :=
  ⟨(response_text.data.drop (pyFindChar '[' response_text.data).toNat).take
    ((pyRfindChar ']' response_text.data + 1).toNat -
      (pyFindChar '[' response_text.data).toNat)⟩

/-- The missing-bracket error message of the source. -/
def invalidFormatMsg : String := "Invalid response format from Gemini API"

/-- The JSON-decode error message of the source. -/
def parseFailMsg : String := "Failed to parse quiz data"

/-- Embedding of the response-parsing step shared by `generate_quiz` and
`generate_quiz_from_description`: compute `find('[')` and `rfind(']') + 1`,
slice when both indices differ from `-1`, and parse the slice with
`json.loads` (modelled as the explicit argument `json_loads`, `none`
standing for `json.JSONDecodeError`). -/
def parse_gemini_response {Q : Type} (json_loads : String → Option Q)
    (response_text : String) : QuizResult Q :=
  if pyFindChar '[' response_text.data ≠ -1 ∧
      pyRfindChar ']' response_text.data + 1 ≠ -1 then
    match json_loads (geminiJsonStr response_text) with
    | some quiz_data => .success quiz_data
    | none => .error parseFailMsg
  else .error invalidFormatMsg

/-- A result is a `MalformedResponse` failure in the spec's taxonomy: one
of the two parsing-failure messages of the source. -/
def isMalformedResponse {Q : Type} (r : QuizResult Q) : Prop :=
  r = .error invalidFormatMsg ∨ r = .error parseFailMsg

/-- The slice as the spec states it: from the first `'['` through the last
`']'` inclusive (empty when the last `']'` precedes the first `'['`). -/
def specBracketSlice (l : List Char) : List Char :=
  (l.take ((pyRfindChar ']' l).toNat + 1)).drop (pyFindChar '[' l).toNat

/-- A concrete stand-in for `json.loads` used in witnesses: accepts
exactly the text `"[7]"`. -/
def toyJsonLoads : String → Option Nat :=
  fun s => if s = "[7]" then some 7 else none

/-! ### Orchestration (`process_youtube_video`, src/app.py:359-420) -/

/-- Outcome of `get_video_info` (src/app.py:51-78). -/
inductive InfoResult
  | success (title description : String)
  | error (msg : String)
deriving DecidableEq

/-- The external collaborators as seen by the route handler: metadata
lookup, the two content strategies, and the two quiz generators (quiz
payloads have type `Q`). -/
structure Env (Q : Type) where
  video_info : String → InfoResult
  transcript : String → StratResult
  captions : String → StratResult
  gen_quiz : String → String → Nat → QuizResult Q
  gen_quiz_desc : String → String → Nat → QuizResult Q

/-- Observable invocations of the collaborators, recorded in order. -/
inductive CallEvent
  | metadata (video_id : String)
  | transcriptLookup (video_id : String)
  | captionsLookup (video_id : String)
  | genQuiz (content title : String) (n : Nat)
  | genQuizDesc (content title : String) (n : Nat)
deriving DecidableEq, Repr

/-- The transport-level response: a success body
`{status, video_title, quiz, content_source}` or an error body with its
HTTP status code. -/
inductive HttpResponse (Q : Type)
  | ok (video_title : String) (quiz : Q) (content_source : String)
  | err (message : String) (code : Nat)
deriving DecidableEq

/-- Embedding of `process_youtube_video` (src/app.py:359-420), returning
the response together with the trace of collaborator calls.  Mirrors the
source: missing/empty URL check, `extract_video_id` (a `ValueError` gives
a 400), metadata lookup (an error dict is returned with a 500 before any
strategy runs), primary transcript lookup, caption fallback only on its
failure, quiz generation from the obtained text tagged `"transcript"`, or
from the description tagged `"description"` when both strategies failed. -/
def process_youtube_video {Q : Type} (env : Env Q) (youtube_url : Option String)
    (num_questions : Nat) : HttpResponse Q × List CallEvent :=
  match youtube_url with
  | none => (.err "YouTube URL is required" 400, [])
  | some url =>
    if url = "" then (.err "YouTube URL is required" 400, [])
    else
      match extract_video_id url with
      | .error m => (.err m 400, [])
      | .ok video_id =>
        match env.video_info video_id with
        | .error m => (.err m 500, [.metadata video_id])
        | .success title description =>
          match env.transcript video_id with
          | .success text =>
            (match env.gen_quiz text title num_questions with
              | .error m => .err m 500
              | .success q => .ok title q "transcript",
             [.metadata video_id, .transcriptLookup video_id,
              .genQuiz text title num_questions])
          | .error _ =>
            match env.captions video_id with
            | .success text =>
              (match env.gen_quiz text title num_questions with
                | .error m => .err m 500
                | .success q => .ok title q "transcript",
               [.metadata video_id, .transcriptLookup video_id,
                .captionsLookup video_id, .genQuiz text title num_questions])
            | .error _ =>
              (match env.gen_quiz_desc description title num_questions with
                | .error m => .err m 500
                | .success q => .ok title q "description",
               [.metadata video_id, .transcriptLookup video_id,
                .captionsLookup video_id,
                .genQuizDesc description title num_questions])

/-- An environment in which the primary transcript lookup succeeds,
used as a concrete instance for claims C3 and C6. -/
def envTranscriptOk : Env Nat :=
  { video_info := fun _ => .success "T" "D"
    transcript := fun _ => .success "spoken text"
    captions := fun _ => .error "unreached"
    gen_quiz := fun _ _ _ => .success 1
    gen_quiz_desc := fun _ _ _ => .success 2 }

/-- An environment in which the primary transcript lookup fails and the
caption-API fallback succeeds, used as a concrete instance for claim C6. -/
def envCaptionsOk : Env Nat :=
  { video_info := fun _ => .success "T" "D"
    transcript := fun _ => .error "no transcript"
    captions := fun _ => .success "caption text"
    gen_quiz := fun _ _ _ => .success 1
    gen_quiz_desc := fun _ _ _ => .success 2 }

/-- An environment in which both content strategies fail, used as a
concrete instance for claim C1. -/
def envDescriptionOnly : Env Nat :=
  { video_info := fun _ => .success "T" "D"
    transcript := fun _ => .error "no transcript"
    captions := fun _ => .error "no captions"
    gen_quiz := fun _ _ _ => .error "unreached"
    gen_quiz_desc := fun _ _ _ => .success 3 }

/-- An environment whose metadata lookup fails, used as a concrete
instance for claim C2. -/
def envNoMetadata : Env Nat :=
  { video_info := fun _ => .error "Video not found. Please check the URL and try again."
    transcript := fun _ => .success "unreached"
    captions := fun _ => .success "unreached"
    gen_quiz := fun _ _ _ => .success 1
    gen_quiz_desc := fun _ _ _ => .success 2 }

/-- Invariant of the pieces joined by the normalizer on plain ampersand-
free input: nonempty, already stripped, ampersand-free, newline-free, free
of the time-range separator, and not purely numeric. -/
def GoodPiece (pc : List Char) : Prop :=
  pc ≠ [] ∧ pyStrip pc = pc ∧ '&' ∉ pc ∧ '\n' ∉ pc ∧
  containsArrow pc = false ∧ pyIsDigit pc = false

/-! ### Lemmas about the utilities -/

theorem startsWithSeq_iff (pat l : List Char) :
    startsWithSeq pat l = true ↔ ∃ t, pat ++ t = l := by
  induction pat generalizing l with
  | nil => simp [startsWithSeq]
  | cons p ps ih =>
    cases l with
    | nil => simp [startsWithSeq]
    | cons c cs =>
      simp only [startsWithSeq, Bool.and_eq_true, decide_eq_true_eq, ih]
      constructor
      · rintro ⟨rfl, t, rfl⟩; exact ⟨t, rfl⟩
      · rintro ⟨t, h⟩
        injection h with h1 h2
        exact ⟨h1, t, h2⟩

theorem containsSeq_iff (pat l : List Char) :
    containsSeq pat l = true ↔ ∃ s t, s ++ pat ++ t = l := by
  induction l with
  | nil =>
    simp only [containsSeq, startsWithSeq_iff]
    constructor
    · rintro ⟨t, h⟩
      exact ⟨[], t, h⟩
    · rintro ⟨s, t, h⟩
      rcases List.append_eq_nil.mp h with ⟨h1, h2⟩
      rcases List.append_eq_nil.mp h1 with ⟨rfl, rfl⟩
      exact ⟨t, h2⟩
  | cons c cs ih =>
    simp only [containsSeq, Bool.or_eq_true, startsWithSeq_iff, ih]
    constructor
    · rintro (⟨t, h⟩ | ⟨s, t, h⟩)
      · exact ⟨[], t, h⟩
      · exact ⟨c :: s, t, by simp [h]⟩
    · rintro ⟨s, t, h⟩
      cases s with
      | nil => exact Or.inl ⟨t, by simpa using h⟩
      | cons a s' =>
        injection h with h1 h2
        exact Or.inr ⟨s', t, h2⟩

theorem splitOnChar_ne_nil (c : Char) (l : List Char) : splitOnChar c l ≠ [] := by
  cases l with
  | nil => simp [splitOnChar]
  | cons a rest =>
    simp only [splitOnChar]
    rcases h : splitOnChar c rest with _ | ⟨h', t'⟩
    · simp
    · by_cases hac : a = c <;> simp [hac]

theorem splitOnChar_pieces_no_sep (c : Char) (l : List Char) :
    ∀ p ∈ splitOnChar c l, c ∉ p := by
  induction l with
  | nil => simp [splitOnChar]
  | cons a rest ih =>
    intro p hp
    rcases h : splitOnChar c rest with _ | ⟨h', t'⟩
    · exact absurd h (splitOnChar_ne_nil c rest)
    · rw [show splitOnChar c (a :: rest) =
            if a = c then [] :: h' :: t' else (a :: h') :: t' from by
          simp only [splitOnChar, h]] at hp
      rw [h] at ih
      by_cases hac : a = c
      · rw [if_pos hac] at hp
        rcases List.mem_cons.mp hp with rfl | hp'
        · simp
        · exact ih p hp'
      · rw [if_neg hac] at hp
        rcases List.mem_cons.mp hp with rfl | hp'
        · intro hmem
          rcases List.mem_cons.mp hmem with rfl | hmem'
          · exact hac rfl
          · exact ih h' (List.mem_cons_self h' t') hmem'
        · exact ih p (List.mem_cons_of_mem h' hp')

theorem splitOnChar_of_not_mem {c : Char} {l : List Char} (h : c ∉ l) :
    splitOnChar c l = [l] := by
  induction l with
  | nil => rfl
  | cons a rest ih =>
    have hac : a ≠ c := fun hc => h (hc ▸ List.mem_cons_self a rest)
    have hrest : c ∉ rest := fun hc => h (List.mem_cons_of_mem a hc)
    simp only [splitOnChar, ih hrest]
    simp [fun hc => hac hc]

/-! ### Claims C1-C3 and C6: the orchestration fallback chain -/

theorem extract_empty_fails : extract_video_id "" =
    Except.error "Invalid YouTube URL format. Please use a standard YouTube URL" := rfl

/-- C1: if metadata lookup succeeds while both the primary transcript
lookup and the caption-API fallback fail, the description is handed to the
synthesizer as the content and a successful response is tagged with
content source "description" (a synthesizer failure is surfaced as a 500). -/
theorem C1_description_fallthrough {Q : Type} (env : Env Q)
    (url vid title desc tm cm : String) (n : Nat)
    (h1 : extract_video_id url = .ok vid)
    (h2 : env.video_info vid = .success title desc)
    (h3 : env.transcript vid = .error tm)
    (h4 : env.captions vid = .error cm) :
    process_youtube_video env (some url) n =
      ((match env.gen_quiz_desc desc title n with
          | .success q => .ok title q "description"
          | .error m => .err m 500),
        [.metadata vid, .transcriptLookup vid, .captionsLookup vid,
         .genQuizDesc desc title n]) := by
  have hu : url ≠ "" := by
    rintro rfl
    rw [extract_empty_fails] at h1
    exact Except.noConfusion h1
  simp only [process_youtube_video, if_neg hu, h1, h2, h3, h4]
  cases env.gen_quiz_desc desc title n <;> rfl

/-- Witness for C1: a concrete run through the description fallthrough. -/
theorem C1_description_fallthrough_witness :
    process_youtube_video envDescriptionOnly (some "https://youtu.be/abc") 5 =
      (.ok "T" 3 "description",
        [.metadata "abc", .transcriptLookup "abc", .captionsLookup "abc",
         .genQuizDesc "D" "T" 5]) := by
  have h := C1_description_fallthrough envDescriptionOnly "https://youtu.be/abc" "abc"
      "T" "D" "no transcript" "no captions" 5 rfl rfl rfl rfl
  exact h.trans rfl

/-- C2: when the metadata lookup fails, the request stops with that
failure (a 500 carrying its message) and no strategy or synthesis call is
ever made. -/
theorem C2_metadata_hard_stop {Q : Type} (env : Env Q) (url vid m : String) (n : Nat)
    (h1 : extract_video_id url = .ok vid)
    (h2 : env.video_info vid = .error m) :
    process_youtube_video env (some url) n = (.err m 500, [.metadata vid]) ∧
    (∀ v, CallEvent.transcriptLookup v ∉ (process_youtube_video env (some url) n).2) ∧
    (∀ v, CallEvent.captionsLookup v ∉ (process_youtube_video env (some url) n).2) ∧
    (∀ c t k, CallEvent.genQuiz c t k ∉ (process_youtube_video env (some url) n).2) ∧
    (∀ c t k, CallEvent.genQuizDesc c t k ∉ (process_youtube_video env (some url) n).2) := by
  have hu : url ≠ "" := by
    rintro rfl
    rw [extract_empty_fails] at h1
    exact Except.noConfusion h1
  have hmain : process_youtube_video env (some url) n = (.err m 500, [.metadata vid]) := by
    simp only [process_youtube_video, if_neg hu, h1, h2]
  refine ⟨hmain, ?_, ?_, ?_, ?_⟩ <;> rw [hmain] <;> simp

/-- Witness for C2: a concrete metadata failure. -/
theorem C2_metadata_hard_stop_witness :
    process_youtube_video envNoMetadata (some "https://youtu.be/abc") 5 =
      (.err "Video not found. Please check the URL and try again." 500,
        [.metadata "abc"]) := by
  exact (C2_metadata_hard_stop envNoMetadata "https://youtu.be/abc" "abc"
    "Video not found. Please check the URL and try again." 5 rfl rfl).1

/-- C3: when the primary transcript lookup succeeds, the caption-API
fallback is never invoked: the run consists of the metadata call, the
transcript call, and quiz synthesis from the transcript text. -/
theorem C3_transcript_short_circuit {Q : Type} (env : Env Q)
    (url vid title desc text : String) (n : Nat)
    (h1 : extract_video_id url = .ok vid)
    (h2 : env.video_info vid = .success title desc)
    (h3 : env.transcript vid = .success text) :
    process_youtube_video env (some url) n =
      ((match env.gen_quiz text title n with
          | .success q => .ok title q "transcript"
          | .error m => .err m 500),
        [.metadata vid, .transcriptLookup vid, .genQuiz text title n]) ∧
    (∀ v, CallEvent.captionsLookup v ∉ (process_youtube_video env (some url) n).2) := by
  have hu : url ≠ "" := by
    rintro rfl
    rw [extract_empty_fails] at h1
    exact Except.noConfusion h1
  have hmain : process_youtube_video env (some url) n =
      ((match env.gen_quiz text title n with
          | .success q => .ok title q "transcript"
          | .error m => .err m 500),
        [.metadata vid, .transcriptLookup vid, .genQuiz text title n]) := by
    simp only [process_youtube_video, if_neg hu, h1, h2, h3]
    cases env.gen_quiz text title n <;> rfl
  refine ⟨hmain, ?_⟩
  rw [hmain]
  simp

/-- Witness for C3: a concrete run with a successful transcript lookup. -/
theorem C3_transcript_short_circuit_witness :
    process_youtube_video envTranscriptOk (some "https://youtu.be/abc") 5 =
      (.ok "T" 1 "transcript",
        [.metadata "abc", .transcriptLookup "abc", .genQuiz "spoken text" "T" 5]) ∧
    (∀ v, CallEvent.captionsLookup v ∉
      (process_youtube_video envTranscriptOk (some "https://youtu.be/abc") 5).2) := by
  have h := C3_transcript_short_circuit envTranscriptOk "https://youtu.be/abc" "abc"
      "T" "D" "spoken text" 5 rfl rfl rfl
  exact ⟨h.1.trans rfl, h.2⟩

/-- C6 counterexample: a run whose content comes from the caption-API
fallback produces a success response tagged "transcript" — the very same
tag as a transcript-provider run — so caption text is not tagged with a
distinct Captions source as the claim requires. -/
theorem C6_counterexample :
    (process_youtube_video envCaptionsOk (some "https://youtu.be/abc") 5).2 =
      [.metadata "abc", .transcriptLookup "abc", .captionsLookup "abc",
       .genQuiz "caption text" "T" 5] ∧
    (process_youtube_video envCaptionsOk (some "https://youtu.be/abc") 5).1 =
      .ok "T" 1 "transcript" ∧
    (process_youtube_video envTranscriptOk (some "https://youtu.be/abc") 5).1 =
      .ok "T" 1 "transcript" := ⟨rfl, rfl, rfl⟩

/-- C6 amended: successful responses carry exactly two content-source
tags: text obtained by either the transcript provider or the caption-API
fallback is tagged "transcript", and description text is tagged
"description". -/
theorem C6_amended_source_tagging {Q : Type} (env : Env Q)
    (url vid title desc : String) (n : Nat)
    (h1 : extract_video_id url = .ok vid)
    (h2 : env.video_info vid = .success title desc) :
    (∀ text, env.transcript vid = .success text →
      ∀ t' q s, (process_youtube_video env (some url) n).1 = .ok t' q s →
        s = "transcript") ∧
    (∀ tm text, env.transcript vid = .error tm → env.captions vid = .success text →
      ∀ t' q s, (process_youtube_video env (some url) n).1 = .ok t' q s →
        s = "transcript") ∧
    (∀ tm cm, env.transcript vid = .error tm → env.captions vid = .error cm →
      ∀ t' q s, (process_youtube_video env (some url) n).1 = .ok t' q s →
        s = "description") := by
  have hu : url ≠ "" := by
    rintro rfl
    rw [extract_empty_fails] at h1
    exact Except.noConfusion h1
  refine ⟨?_, ?_, ?_⟩
  · intro text h3 t' q s hr
    rw [show process_youtube_video env (some url) n =
        ((match env.gen_quiz text title n with
            | .success q => .ok title q "transcript"
            | .error m => .err m 500),
          [.metadata vid, .transcriptLookup vid, .genQuiz text title n]) from by
      simp only [process_youtube_video, if_neg hu, h1, h2, h3]
      cases env.gen_quiz text title n <;> rfl] at hr
    rcases hq : env.gen_quiz text title n with q' | m' <;> rw [hq] at hr
    · exact (HttpResponse.ok.inj hr).2.2.symm
    · exact HttpResponse.noConfusion hr
  · intro tm text h3 h4 t' q s hr
    rw [show process_youtube_video env (some url) n =
        ((match env.gen_quiz text title n with
            | .success q => .ok title q "transcript"
            | .error m => .err m 500),
          [.metadata vid, .transcriptLookup vid, .captionsLookup vid,
           .genQuiz text title n]) from by
      simp only [process_youtube_video, if_neg hu, h1, h2, h3, h4]
      cases env.gen_quiz text title n <;> rfl] at hr
    rcases hq : env.gen_quiz text title n with q' | m' <;> rw [hq] at hr
    · exact (HttpResponse.ok.inj hr).2.2.symm
    · exact HttpResponse.noConfusion hr
  · intro tm cm h3 h4 t' q s hr
    rw [show process_youtube_video env (some url) n =
        ((match env.gen_quiz_desc desc title n with
            | .success q => .ok title q "description"
            | .error m => .err m 500),
          [.metadata vid, .transcriptLookup vid, .captionsLookup vid,
           .genQuizDesc desc title n]) from by
      simp only [process_youtube_video, if_neg hu, h1, h2, h3, h4]
      cases env.gen_quiz_desc desc title n <;> rfl] at hr
    rcases hq : env.gen_quiz_desc desc title n with q' | m' <;> rw [hq] at hr
    · exact (HttpResponse.ok.inj hr).2.2.symm
    · exact HttpResponse.noConfusion hr

/-- Witness for the amended C6: a caption-fallback run really is tagged
"transcript". -/
theorem C6_amended_source_tagging_witness :
    ∃ s, (process_youtube_video envCaptionsOk (some "https://youtu.be/abc") 5).1 =
      HttpResponse.ok "T" 1 s ∧ s = "transcript" := by
  refine ⟨"transcript", rfl, ?_⟩
  exact (C6_amended_source_tagging envCaptionsOk "https://youtu.be/abc" "abc"
    "T" "D" 5 rfl rfl).2.1 "no transcript" "caption text" rfl rfl "T" 1 "transcript" rfl

/-! ### Claim C7: the primary transcript strategy -/

theorem finishFetch_eq_specFetch (fr : Except PyExc (List String)) :
    finishFetch fr = specFetch fr := by
  cases fr with
  | ok parts => rfl
  | error e => cases e <;> rfl

/-- C7 counterexample: with a single non-English track whose machine
translation fails with a generic provider error, the strategy fails with
the generic retrieval message, not with the `NoTranscript` error the
claim requires for every translation failure. -/
theorem C7_counterexample :
    get_video_transcript (.ok [frTrack]) =
      .error "Error retrieving transcript: translation service down" ∧
    get_video_transcript (.ok [frTrack]) ≠ .error noTranscriptMsg := by
  refine ⟨rfl, ?_⟩
  intro h
  exact absurd (StratResult.error.inj h) (by decide)

/-- C7 amended: the strategy equals the spec-side policy: prefer an exact
`en` track, else `en-US`, else `en-GB`; with no tracks at all, fail with
`NoTranscript`; otherwise translate the first track, where translation
failures raised as index/not-found/disabled signals yield `NoTranscript`
but any other failure yields the generic retrieval error. -/
theorem C7_amended_track_selection (listing : Except PyExc (List TranscriptTrack)) :
    get_video_transcript listing = transcriptSpec listing := by
  cases listing with
  | error e => cases e <;> rfl
  | ok tracks =>
    simp only [get_video_transcript, transcriptSpec, selectEnglishTrack]
    cases h1 : tracks.find? (fun t => t.language_code == "en") with
    | some t => simp [Option.orElse, finishFetch_eq_specFetch]
    | none =>
      cases h2 : tracks.find? (fun t => t.language_code == "en-US") with
      | some t => simp [Option.orElse, finishFetch_eq_specFetch]
      | none =>
        cases h3 : tracks.find? (fun t => t.language_code == "en-GB") with
        | some t => simp [Option.orElse, finishFetch_eq_specFetch]
        | none =>
          simp only [Option.orElse]
          cases tracks with
          | nil => rfl
          | cons t ts =>
            simp only [List.head?]
            cases htr : t.translate_en with
            | ok fr => simp [finishFetch_eq_specFetch]
            | error e => cases e <;> rfl

/-! ### Claims C5 and C10: generative-reply parsing -/

theorem firstIdxAux_eq_none_iff (c : Char) (l : List Char) :
    firstIdxAux c l = none ↔ c ∉ l := by
  induction l with
  | nil => simp [firstIdxAux]
  | cons a rest ih =>
    by_cases hac : a = c
    · subst hac; simp [firstIdxAux]
    · rw [show firstIdxAux c (a :: rest) = (firstIdxAux c rest).map (· + 1) from by
        simp [firstIdxAux, hac]]
      cases h : firstIdxAux c rest with
      | some i =>
        have hmem : c ∈ rest := by
          by_contra hc
          rw [ih.mpr hc] at h
          exact Option.noConfusion h
        simp [hmem]
      | none =>
        have hnm : c ∉ rest := ih.mp h
        simp only [Option.map_none', true_iff, List.mem_cons]
        rintro (hc | hc)
        · exact hac hc.symm
        · exact hnm hc

theorem pyFindChar_neg_one_iff (c : Char) (l : List Char) :
    pyFindChar c l = -1 ↔ c ∉ l := by
  unfold pyFindChar
  cases h : firstIdxAux c l with
  | some i =>
    have hmem : c ∈ l := by
      by_contra hc
      rw [(firstIdxAux_eq_none_iff c l).mpr hc] at h
      exact Option.noConfusion h
    show ((i : Int) = -1) ↔ c ∉ l
    constructor
    · intro hi; exact absurd hi (by omega)
    · intro hc; exact absurd hmem hc
  | none =>
    show ((-1 : Int) = -1) ↔ c ∉ l
    simp [(firstIdxAux_eq_none_iff c l).mp h]

theorem pyFindChar_ne_neg_one_of_mem {c : Char} {l : List Char} (h : c ∈ l) :
    pyFindChar c l ≠ -1 :=
  fun he => absurd h ((pyFindChar_neg_one_iff c l).mp he)

theorem pyRfindChar_succ_ne_neg_one (c : Char) (l : List Char) :
    pyRfindChar c l + 1 ≠ -1 := by
  unfold pyRfindChar
  cases h : firstIdxAux c l.reverse with
  | some i =>
    show ((l.length - 1 - i : Nat) : Int) + 1 ≠ -1
    omega
  | none =>
    show (-1 : Int) + 1 ≠ -1
    omega

theorem pyRfindChar_mem_nonneg {c : Char} {l : List Char} (h : c ∈ l) :
    0 ≤ pyRfindChar c l := by
  unfold pyRfindChar
  cases hf : firstIdxAux c l.reverse with
  | some i =>
    show (0 : Int) ≤ ((l.length - 1 - i : Nat) : Int)
    omega
  | none =>
    exact absurd ((firstIdxAux_eq_none_iff c l.reverse).mp hf) (by simpa using h)

theorem geminiJsonStr_eq_specBracketSlice (s : String) (h : ']' ∈ s.data) :
    geminiJsonStr s = ⟨specBracketSlice s.data⟩ := by
  unfold geminiJsonStr specBracketSlice
  have h0 : 0 ≤ pyRfindChar ']' s.data := pyRfindChar_mem_nonneg h
  have ht : (pyRfindChar ']' s.data + 1).toNat = (pyRfindChar ']' s.data).toNat + 1 := by
    omega
  rw [ht, List.drop_take]

theorem geminiJsonStr_empty_of_no_rbracket (s : String) (h : ']' ∉ s.data) :
    geminiJsonStr s = "" := by
  unfold geminiJsonStr
  have hr : pyRfindChar ']' s.data = -1 := by
    unfold pyRfindChar
    cases hf : firstIdxAux ']' s.data.reverse with
    | some i =>
      have : ']' ∈ s.data.reverse := by
        by_contra hc
        rw [(firstIdxAux_eq_none_iff ']' s.data.reverse).mpr hc] at hf
        exact Option.noConfusion hf
      exact absurd (by simpa using this) h
    | none => rfl
  rw [hr]
  show String.mk (List.take ((-1 + 1 : Int).toNat - _) _) = ""
  norm_num

/-- C5: the parsing step fails with a `MalformedResponse` error whenever
the reply lacks `'['` or `']'`; otherwise it parses exactly the slice from
the first `'['` through the last `']'` inclusive, returning the parsed
value on success and failing with `MalformedResponse` when the slice is
not valid JSON. -/
theorem C5_parsing_policy {Q : Type} (json_loads : String → Option Q) (s : String)
    (hempty : json_loads "" = none) :
    (('[' ∉ s.data ∨ ']' ∉ s.data) →
        isMalformedResponse (parse_gemini_response json_loads s)) ∧
    ('[' ∈ s.data → ']' ∈ s.data →
        parse_gemini_response json_loads s =
          match json_loads ⟨specBracketSlice s.data⟩ with
          | some v => QuizResult.success v
          | none => QuizResult.error parseFailMsg) := by
  constructor
  · intro h
    by_cases h1 : '[' ∈ s.data
    · have h2 : ']' ∉ s.data := by
        rcases h with h | h
        · exact absurd h1 h
        · exact h
      have hcond : pyFindChar '[' s.data ≠ -1 ∧ pyRfindChar ']' s.data + 1 ≠ -1 :=
        ⟨pyFindChar_ne_neg_one_of_mem h1, pyRfindChar_succ_ne_neg_one ']' s.data⟩
      right
      unfold parse_gemini_response
      rw [if_pos hcond, geminiJsonStr_empty_of_no_rbracket s h2, hempty]
    · left
      unfold parse_gemini_response
      rw [if_neg (by
        rintro ⟨hne, -⟩
        exact hne ((pyFindChar_neg_one_iff '[' s.data).mpr h1))]
  · intro h1 h2
    have hcond : pyFindChar '[' s.data ≠ -1 ∧ pyRfindChar ']' s.data + 1 ≠ -1 :=
      ⟨pyFindChar_ne_neg_one_of_mem h1, pyRfindChar_succ_ne_neg_one ']' s.data⟩
    unfold parse_gemini_response
    rw [if_pos hcond, geminiJsonStr_eq_specBracketSlice s h2]

/-- Witness for C5: a reply wrapping the JSON array in prose parses to the
bracketed payload. -/
theorem C5_parsing_policy_witness :
    parse_gemini_response toyJsonLoads "Sure! Here is the quiz: [7] Enjoy." =
      QuizResult.success 7 := by
  have h := (C5_parsing_policy toyJsonLoads "Sure! Here is the quiz: [7] Enjoy." rfl).2
    (by decide) (by decide)
  exact h.trans rfl

/-- C10: `end_idx = rfind(']') + 1` never equals `-1`; the
missing-bracket branch is taken exactly when the reply has no `'['`; and a
reply with `'['` but no `']'` reaches the JSON-parse step on the empty
slice and fails through the JSON-decode branch. -/
theorem C10_end_idx_analysis {Q : Type} (json_loads : String → Option Q) (s : String) :
    pyRfindChar ']' s.data + 1 ≠ -1 ∧
    (parse_gemini_response json_loads s = .error invalidFormatMsg ↔ '[' ∉ s.data) ∧
    ('[' ∈ s.data → ']' ∉ s.data →
      geminiJsonStr s = "" ∧
      (json_loads "" = none →
        parse_gemini_response json_loads s = .error parseFailMsg)) := by
  refine ⟨pyRfindChar_succ_ne_neg_one ']' s.data, ?_, ?_⟩
  · constructor
    · intro hr
      by_contra h1
      have hcond : pyFindChar '[' s.data ≠ -1 ∧ pyRfindChar ']' s.data + 1 ≠ -1 :=
        ⟨pyFindChar_ne_neg_one_of_mem (by simpa using h1), pyRfindChar_succ_ne_neg_one ']' s.data⟩
      unfold parse_gemini_response at hr
      rw [if_pos hcond] at hr
      cases hj : json_loads (geminiJsonStr s) with
      | some v =>
        rw [hj] at hr
        simp only at hr
        exact QuizResult.noConfusion hr
      | none =>
        rw [hj] at hr
        simp only at hr
        exact absurd (QuizResult.error.inj hr) (by decide)
    · intro h1
      unfold parse_gemini_response
      rw [if_neg (by
        rintro ⟨hne, -⟩
        exact hne ((pyFindChar_neg_one_iff '[' s.data).mpr h1))]
  · intro h1 h2
    refine ⟨geminiJsonStr_empty_of_no_rbracket s h2, fun hempty => ?_⟩
    have hcond : pyFindChar '[' s.data ≠ -1 ∧ pyRfindChar ']' s.data + 1 ≠ -1 :=
      ⟨pyFindChar_ne_neg_one_of_mem h1, pyRfindChar_succ_ne_neg_one ']' s.data⟩
    unfold parse_gemini_response
    rw [if_pos hcond, geminiJsonStr_empty_of_no_rbracket s h2, hempty]

/-- Witness for C10: the two error branches at concrete replies. -/
theorem C10_end_idx_analysis_witness :
    parse_gemini_response toyJsonLoads "no brackets here" = .error invalidFormatMsg ∧
    parse_gemini_response toyJsonLoads "open [ bracket only" = .error parseFailMsg := by
  constructor
  · exact (C10_end_idx_analysis toyJsonLoads "no brackets here").2.1.mpr (by decide)
  · exact ((C10_end_idx_analysis toyJsonLoads "open [ bracket only").2.2
      (by decide) (by decide)).2 rfl

/-! ### Claim C4: the URL parser -/

theorem splitOnChar_headD_takeUntil (c : Char) (l : List Char) :
    (splitOnChar c l).headD [] = takeUntil c l := by
  induction l with
  | nil => rfl
  | cons a rest ih =>
    rcases h : splitOnChar c rest with _ | ⟨h', t'⟩
    · exact absurd h (splitOnChar_ne_nil c rest)
    · rw [h] at ih
      simp only [List.headD_cons] at ih
      by_cases hac : a = c
      · subst hac
        rw [show splitOnChar a (a :: rest) = [] :: h' :: t' from by simp [splitOnChar, h]]
        simp [takeUntil, List.takeWhile_cons]
      · rw [show splitOnChar c (a :: rest) = (a :: h') :: t' from by
          simp [splitOnChar, h, hac]]
        simp only [List.headD_cons]
        rw [show takeUntil c (a :: rest) = a :: takeUntil c rest from by
          simp [takeUntil, List.takeWhile_cons, hac]]
        rw [ih]

/-- C4 counterexample: `https://www.youtube.com/watch?v=youtu.be` is a
canonical-watch form URL carrying a `v` query parameter, yet
`extract_video_id` returns `"watch"` — the substring test for
`"youtu.be"` fires first — instead of the `v` parameter's value. -/
theorem C4_counterexample :
    specIsWatchForm "https://www.youtube.com/watch?v=youtu.be" = true ∧
    specV "https://www.youtube.com/watch?v=youtu.be" = some "youtu.be".data ∧
    extract_video_id "https://www.youtube.com/watch?v=youtu.be" = Except.ok "watch" ∧
    Except.ok "watch" ≠ (Except.ok "youtu.be" : Except String String) := by
  refine ⟨rfl, rfl, rfl, fun h => ?_⟩
  exact absurd (Except.ok.inj h) (by decide)

/-- C4 amended: the parser dispatches on substring containment, not on URL
shape: a URL containing `"youtu.be"` anywhere yields the last path segment
stripped of any trailing query string; otherwise a URL containing
`"youtube.com/watch"` yields the first `v` query-parameter value, or the
missing-parameter `ValueError` when there is none; every other URL fails
with the invalid-format `ValueError`. -/
theorem C4_amended_substring_dispatch (url : String) :
    (pyIn "youtu.be" url = true → extract_video_id url = .ok (specShortId url)) ∧
    (pyIn "youtu.be" url = false → pyIn "youtube.com/watch" url = true →
        extract_video_id url =
          match specV url with
          | some v => .ok ⟨v⟩
          | none => .error "Invalid YouTube URL: missing video ID parameter") ∧
    (pyIn "youtu.be" url = false → pyIn "youtube.com/watch" url = false →
        extract_video_id url =
          .error "Invalid YouTube URL format. Please use a standard YouTube URL") := by
  refine ⟨?_, ?_, ?_⟩
  · intro h
    unfold extract_video_id specShortId
    rw [if_pos h, splitOnChar_headD_takeUntil]
  · intro h1 h2
    unfold extract_video_id specV
    rw [if_neg (by simp [h1]), if_pos h2]
    cases hv : parse_qs_v (urlQuery url.data) with
    | nil => rfl
    | cons v vs => rfl
  · intro h1 h2
    unfold extract_video_id
    rw [if_neg (by simp [h1]), if_neg (by simp [h2])]

/-- Witness for the amended C4: the spec's own short-link example. -/
theorem C4_amended_substring_dispatch_witness :
    extract_video_id "https://youtu.be/abc123?t=5" = Except.ok "abc123" := by
  have h := (C4_amended_substring_dispatch "https://youtu.be/abc123?t=5").1 rfl
  exact h.trans rfl

/-! ### Claim C8: the caption normalizer scan -/

theorem cleanLoop_eq_filter_map (ls : List (List Char)) :
    cleanLoop ls = (ls.filter keepLine).map (fun l => htmlUnescape (pyStrip l)) := by
  induction ls with
  | nil => rfl
  | cons l ls ih =>
    by_cases h1 : (pyStrip l).isEmpty = true
    · simp [cleanLoop, keepLine, h1, ih]
    · by_cases h2 : pyIsDigit (pyStrip l) = true
      · simp [cleanLoop, keepLine, h1, h2, ih]
      · by_cases h3 : containsArrow (pyStrip l) = true
        · simp [cleanLoop, keepLine, h1, h2, h3, ih]
        · simp [cleanLoop, keepLine, h1, h2, h3, ih]

/-- C8: the normalizer scans the lines in order, discards exactly the
lines that are empty after trimming, purely numeric, or contain the
`'-->'` separator, HTML-entity-decodes each remaining (trimmed) line in
its original order, and joins the results with single spaces. -/
theorem C8_caption_normalizer_scan (s : String) :
    clean_srt_to_plain_text s = cleanSpec s := by
  unfold clean_srt_to_plain_text cleanSpec
  rw [cleanLoop_eq_filter_map]

/-! ### Claim C9: idempotence of the caption normalizer -/

set_option maxHeartbeats 1000000 in
theorem htmlUnescape_of_no_amp {l : List Char} (h : '&' ∉ l) : htmlUnescape l = l := by
  induction l with
  | nil => rfl
  | cons c rest ih =>
    have hc : c ≠ '&' := fun he => h (by simp [he])
    have hrest : '&' ∉ rest := fun hm => h (List.mem_cons_of_mem c hm)
    rw [htmlUnescape.eq_def]
    split
    next heq => exact absurd heq (by simp)
    next heq => exact absurd (List.cons.inj heq).1 hc
    next heq => exact absurd (List.cons.inj heq).1 hc
    next heq => exact absurd (List.cons.inj heq).1 hc
    next heq => exact absurd (List.cons.inj heq).1 hc
    next heq => exact absurd (List.cons.inj heq).1 hc
    next x xs heq =>
      obtain ⟨h1, h2⟩ := List.cons.inj heq
      subst h1; subst h2
      rw [ih hrest]

theorem dropWhile_head_false {p : Char → Bool} :
    ∀ {l : List Char} {x : Char} {xs : List Char},
      List.dropWhile p l = x :: xs → p x = false := by
  intro l
  induction l with
  | nil => intro x xs h; exact List.noConfusion h
  | cons a rest ih =>
    intro x xs h
    rw [List.dropWhile_cons] at h
    by_cases hpa : p a = true
    · rw [if_pos hpa] at h
      exact ih h
    · rw [if_neg hpa] at h
      obtain ⟨h1, -⟩ := List.cons.inj h
      rw [← h1]
      cases hb : p a
      · rfl
      · exact absurd hb hpa

theorem dropWhile_eq_self_of_head {p : Char → Bool} {l : List Char}
    (h : ∀ x xs, l = x :: xs → p x = false) : l.dropWhile p = l := by
  cases l with
  | nil => rfl
  | cons a rest =>
    rw [List.dropWhile_cons, if_neg (by simp [h a rest rfl])]

theorem pyStrip_decomp (l : List Char) : ∃ s t, s ++ pyStrip l ++ t = l := by
  refine ⟨l.takeWhile isPyWs,
    ((l.dropWhile isPyWs).reverse.takeWhile isPyWs).reverse, ?_⟩
  unfold pyStrip
  have h3 : ((l.dropWhile isPyWs).reverse.dropWhile isPyWs).reverse ++
      ((l.dropWhile isPyWs).reverse.takeWhile isPyWs).reverse = l.dropWhile isPyWs := by
    rw [← List.reverse_append,
      List.takeWhile_append_dropWhile isPyWs (l.dropWhile isPyWs).reverse,
      List.reverse_reverse]
  rw [List.append_assoc, h3]
  exact List.takeWhile_append_dropWhile isPyWs l

theorem mem_of_mem_pyStrip {x : Char} {l : List Char} (h : x ∈ pyStrip l) : x ∈ l := by
  obtain ⟨s, t, hst⟩ := pyStrip_decomp l
  rw [← hst]
  simp [h]

theorem containsSeq_of_pyStrip {pat l : List Char}
    (h : containsSeq pat (pyStrip l) = true) : containsSeq pat l = true := by
  obtain ⟨s, t, hst⟩ := pyStrip_decomp l
  obtain ⟨u, v, huv⟩ := (containsSeq_iff pat _).mp h
  apply (containsSeq_iff pat l).mpr
  exact ⟨s ++ u, v ++ t, by rw [← hst, ← huv]; simp⟩

theorem pyStrip_head_false {l : List Char} {x : Char} {xs : List Char}
    (h : pyStrip l = x :: xs) : isPyWs x = false := by
  unfold pyStrip at h
  have h3 : ((l.dropWhile isPyWs).reverse.dropWhile isPyWs).reverse ++
      ((l.dropWhile isPyWs).reverse.takeWhile isPyWs).reverse = l.dropWhile isPyWs := by
    rw [← List.reverse_append,
      List.takeWhile_append_dropWhile isPyWs (l.dropWhile isPyWs).reverse,
      List.reverse_reverse]
  rw [h] at h3
  exact dropWhile_head_false h3.symm

theorem pyStrip_reverse_head_false {l : List Char} {x : Char} {xs : List Char}
    (h : (pyStrip l).reverse = x :: xs) : isPyWs x = false := by
  unfold pyStrip at h
  rw [List.reverse_reverse] at h
  exact dropWhile_head_false h

theorem pyStrip_eq_self {m : List Char}
    (h1 : ∀ x xs, m = x :: xs → isPyWs x = false)
    (h2 : ∀ x xs, m.reverse = x :: xs → isPyWs x = false) :
    pyStrip m = m := by
  unfold pyStrip
  rw [dropWhile_eq_self_of_head h1, dropWhile_eq_self_of_head h2]
  exact List.reverse_reverse m

theorem pyStrip_idem (l : List Char) : pyStrip (pyStrip l) = pyStrip l := by
  apply pyStrip_eq_self
  · intro x xs h
    exact pyStrip_head_false h
  · intro x xs h
    exact pyStrip_reverse_head_false h

theorem startsWithSeq_append_sep {pat : List Char} (hp : ' ' ∉ pat) :
    ∀ {a b : List Char}, startsWithSeq pat (a ++ ' ' :: b) = true →
      startsWithSeq pat a = true := by
  induction pat with
  | nil => intro a b _; rfl
  | cons p ps ih =>
    intro a b h
    have hps : ' ' ∉ ps := fun hm => hp (List.mem_cons_of_mem p hm)
    cases a with
    | nil =>
      simp only [List.nil_append, startsWithSeq, Bool.and_eq_true,
        decide_eq_true_eq] at h
      exact absurd (h.1 ▸ List.mem_cons_self p ps) hp
    | cons y a' =>
      simp only [List.cons_append, startsWithSeq, Bool.and_eq_true,
        decide_eq_true_eq] at h ⊢
      exact ⟨h.1, ih hps h.2⟩

theorem containsSeq_append_sep {pat : List Char} (hp : ' ' ∉ pat) :
    ∀ {p q : List Char}, containsSeq pat (p ++ ' ' :: q) = true →
      containsSeq pat p = true ∨ containsSeq pat q = true := by
  intro p
  induction p with
  | nil =>
    intro q h
    simp only [List.nil_append, containsSeq] at h
    simp only [Bool.or_eq_true] at h
    rcases h with h | h
    · cases pat with
      | nil => left; rfl
      | cons x ps =>
        simp only [startsWithSeq, Bool.and_eq_true, decide_eq_true_eq] at h
        exact absurd (h.1 ▸ List.mem_cons_self x ps) hp
    · right; exact h
  | cons y p' ih =>
    intro q h
    simp only [List.cons_append, containsSeq] at h
    simp only [Bool.or_eq_true] at h
    rcases h with h | h
    · left
      have h' : startsWithSeq pat ((y :: p') ++ ' ' :: q) = true := by simpa using h
      have hs := startsWithSeq_append_sep hp h'
      show (startsWithSeq pat (y :: p') || containsSeq pat p') = true
      rw [hs]
      rfl
    · rcases ih h with h' | h'
      · left
        show (startsWithSeq pat (y :: p') || containsSeq pat p') = true
        rw [h']
        exact Bool.or_true _
      · right; exact h'

theorem goodPiece_of_line {l : List Char}
    (hamp : ∀ x ∈ l, x ≠ '&') (hdig : pyIsDigit (pyStrip l) = false)
    (harr : containsArrow l = false) (hnl : '\n' ∉ l)
    (hne : (pyStrip l).isEmpty = false) : GoodPiece (pyStrip l) := by
  refine ⟨?_, pyStrip_idem l, ?_, ?_, ?_, hdig⟩
  · intro hc
    rw [hc] at hne
    exact Bool.noConfusion hne
  · intro hm
    exact hamp '&' (mem_of_mem_pyStrip hm) rfl
  · intro hm
    exact absurd (mem_of_mem_pyStrip hm) (by simpa using hnl)
  · cases hb : containsArrow (pyStrip l)
    · rfl
    · exfalso
      have := @containsSeq_of_pyStrip ['-', '-', '>'] l hb
      rw [show containsSeq ['-', '-', '>'] l = containsArrow l from rfl, harr] at this
      exact Bool.noConfusion this

theorem joinWith_cons_cons (pc q : List Char) (t : List (List Char)) :
    joinWith [' '] (pc :: q :: t) = pc ++ ' ' :: joinWith [' '] (q :: t) := by
  show pc ++ [' '] ++ joinWith [' '] (q :: t) = pc ++ ' ' :: joinWith [' '] (q :: t)
  rw [List.append_assoc]
  rfl

theorem goodPiece_join : ∀ {pieces : List (List Char)},
    (∀ pc ∈ pieces, GoodPiece pc) → pieces ≠ [] →
      GoodPiece (joinWith [' '] pieces) := by
  intro pieces
  induction pieces with
  | nil => intro _ hne; exact absurd rfl hne
  | cons pc rest ih =>
    intro h _
    cases rest with
    | nil => exact h pc (List.mem_cons_self pc [])
    | cons q t =>
      have hgood_pc : GoodPiece pc := h pc (List.mem_cons_self _ _)
      have hgood_rest : GoodPiece (joinWith [' '] (q :: t)) :=
        ih (fun x hx => h x (List.mem_cons_of_mem _ hx)) (List.cons_ne_nil q t)
      rw [joinWith_cons_cons]
      obtain ⟨hne1, hstrip1, hamp1, hnl1, harr1, hdig1⟩ := hgood_pc
      obtain ⟨hne2, hstrip2, hamp2, hnl2, harr2, hdig2⟩ := hgood_rest
      refine ⟨?_, ?_, ?_, ?_, ?_, ?_⟩
      · cases hpc : pc with
        | nil => exact absurd hpc hne1
        | cons a b => simp [hpc]
      · apply pyStrip_eq_self
        · intro x xs hx
          cases hpc : pc with
          | nil => exact absurd hpc hne1
          | cons a b =>
            rw [hpc] at hx
            simp only [List.cons_append] at hx
            obtain ⟨h1, -⟩ := List.cons.inj hx
            rw [← h1]
            exact pyStrip_head_false (l := pc) (by rw [hstrip1, hpc])
        · intro x xs hx
          rw [List.reverse_append, List.reverse_cons, List.append_assoc] at hx
          cases hJr : (joinWith [' '] (q :: t)).reverse with
          | nil =>
            have : joinWith [' '] (q :: t) = [] := by
              have := congrArg List.reverse hJr
              simpa using this
            exact absurd this hne2
          | cons a b =>
            rw [hJr] at hx
            simp only [List.cons_append] at hx
            obtain ⟨h1, -⟩ := List.cons.inj hx
            rw [← h1]
            exact pyStrip_reverse_head_false (l := joinWith [' '] (q :: t))
              (by rw [hstrip2, hJr])
      · intro hm
        rcases List.mem_append.mp hm with hm | hm
        · exact hamp1 hm
        · rcases List.mem_cons.mp hm with hm | hm
          · exact absurd hm (by decide)
          · exact hamp2 hm
      · intro hm
        rcases List.mem_append.mp hm with hm | hm
        · exact hnl1 hm
        · rcases List.mem_cons.mp hm with hm | hm
          · exact absurd hm (by decide)
          · exact hnl2 hm
      · cases hb : containsArrow (pc ++ ' ' :: joinWith [' '] (q :: t))
        · rfl
        · exfalso
          rcases containsSeq_append_sep (by decide) hb with hx | hx
          · rw [show containsSeq ['-', '-', '>'] pc = containsArrow pc from rfl,
              harr1] at hx
            exact Bool.noConfusion hx
          · rw [show containsSeq ['-', '-', '>'] (joinWith [' '] (q :: t)) =
                containsArrow (joinWith [' '] (q :: t)) from rfl, harr2] at hx
            exact Bool.noConfusion hx
      · cases hb : pyIsDigit (pc ++ ' ' :: joinWith [' '] (q :: t))
        · rfl
        · exfalso
          unfold pyIsDigit at hb
          simp only [Bool.and_eq_true] at hb
          have := List.all_eq_true.mp hb.2 ' ' (by simp)
          exact absurd this (by decide)

theorem clean_of_goodPiece {J : List Char} (h : GoodPiece J) :
    clean_srt_to_plain_text ⟨J⟩ = ⟨J⟩ := by
  obtain ⟨hne, hstrip, hamp, hnl, harr, hdig⟩ := h
  have hie : (pyStrip J).isEmpty = false := by
    rw [hstrip]
    cases hJ : J with
    | nil => exact absurd hJ hne
    | cons a b => rfl
  have hd : pyIsDigit (pyStrip J) = false := by rw [hstrip]; exact hdig
  have ha : containsArrow (pyStrip J) = false := by rw [hstrip]; exact harr
  show String.mk (joinWith [' '] (cleanLoop (splitOnChar '\n' J))) = ⟨J⟩
  rw [splitOnChar_of_not_mem hnl]
  rw [show cleanLoop [J] = [htmlUnescape (pyStrip J)] from by
    simp [cleanLoop, hie, hd, ha]]
  rw [hstrip, htmlUnescape_of_no_amp hamp]
  rfl

theorem clean_of_good_join {pieces : List (List Char)}
    (h : ∀ pc ∈ pieces, GoodPiece pc) :
    clean_srt_to_plain_text ⟨joinWith [' '] pieces⟩ = ⟨joinWith [' '] pieces⟩ := by
  cases hp : pieces with
  | nil => rfl
  | cons pc t =>
    exact clean_of_goodPiece (goodPiece_join (hp ▸ h) (List.cons_ne_nil pc t))

/-- C9 counterexample: `"&amp;amp;"` is plain text in the claim's sense
(no numeric lines, no time-range token), yet the normalizer changes it
beyond whitespace joining and is not idempotent on it: one application
yields `"&amp;"` and a second yields `"&"`. -/
theorem C9_counterexample :
    claimPlain "&amp;amp;" = true ∧
    clean_srt_to_plain_text "&amp;amp;" ≠ wsJoinPlain "&amp;amp;" ∧
    clean_srt_to_plain_text (clean_srt_to_plain_text "&amp;amp;") ≠
      clean_srt_to_plain_text "&amp;amp;" := by
  refine ⟨rfl, ?_, ?_⟩
  · intro h
    exact absurd (congrArg String.data h) (by decide)
  · intro h
    exact absurd (congrArg String.data h) (by decide)

/-- C9 amended: on plain text that is moreover ampersand-free (so that
HTML-entity decoding is the identity, as it is for Python's
`html.unescape`), the normalizer returns the input unchanged modulo
whitespace joining — it equals the space-join of the trimmed nonempty
lines — and it is idempotent: normalizing its own output returns the same
string. -/
theorem C9_amended_idempotent_on_plain (s : String) (h : plainAmpFree s = true) :
    clean_srt_to_plain_text s = wsJoinPlain s ∧
    clean_srt_to_plain_text (clean_srt_to_plain_text s) =
      clean_srt_to_plain_text s := by
  have hall := List.all_eq_true.mp h
  have hfacts : ∀ l ∈ splitOnChar '\n' s.data,
      (∀ x ∈ l, x ≠ '&') ∧ pyIsDigit (pyStrip l) = false ∧
        containsArrow l = false := by
    intro l hl
    have hthis := hall l hl
    simp only [Bool.and_eq_true, Bool.not_eq_true'] at hthis
    refine ⟨fun x hx => ?_, hthis.1.2, hthis.2⟩
    have := List.all_eq_true.mp hthis.1.1 x hx
    simpa using this
  have hfil : (splitOnChar '\n' s.data).filter keepLine =
      (splitOnChar '\n' s.data).filter (fun l => !(pyStrip l).isEmpty) := by
    apply List.filter_congr
    intro l hl
    obtain ⟨-, hd, ha⟩ := hfacts l hl
    have ha' : containsArrow (pyStrip l) = false := by
      cases hb : containsArrow (pyStrip l)
      · rfl
      · exfalso
        have := @containsSeq_of_pyStrip ['-', '-', '>'] l hb
        rw [show containsSeq ['-', '-', '>'] l = containsArrow l from rfl, ha] at this
        exact Bool.noConfusion this
    simp [keepLine, hd, ha']
  have hmap : ((splitOnChar '\n' s.data).filter
        (fun l => !(pyStrip l).isEmpty)).map (fun l => htmlUnescape (pyStrip l)) =
      ((splitOnChar '\n' s.data).filter (fun l => !(pyStrip l).isEmpty)).map pyStrip := by
    apply List.map_congr_left
    intro l hl
    have hl' : l ∈ splitOnChar '\n' s.data := List.mem_of_mem_filter hl
    obtain ⟨hamp, -, -⟩ := hfacts l hl'
    exact htmlUnescape_of_no_amp (fun hm => (hamp '&' (mem_of_mem_pyStrip hm)) rfl)
  have h1 : clean_srt_to_plain_text s = wsJoinPlain s := by
    unfold clean_srt_to_plain_text wsJoinPlain
    rw [cleanLoop_eq_filter_map, hfil, hmap]
  have hgoods : ∀ pc ∈ ((splitOnChar '\n' s.data).filter
      (fun l => !(pyStrip l).isEmpty)).map pyStrip, GoodPiece pc := by
    intro pc hpc
    obtain ⟨l, hlf, rfl⟩ := List.mem_map.mp hpc
    obtain ⟨hl, hgl⟩ := List.mem_filter.mp hlf
    obtain ⟨hamp, hd, ha⟩ := hfacts l hl
    exact goodPiece_of_line hamp hd ha
      (splitOnChar_pieces_no_sep '\n' s.data l hl) (by simpa using hgl)
  refine ⟨h1, ?_⟩
  rw [h1]
  exact clean_of_good_join hgoods

/-- Witness for the amended C9: a concrete plain two-line input. -/
theorem C9_amended_idempotent_on_plain_witness :
    clean_srt_to_plain_text "  hello world \nsecond line" =
      "hello world second line" ∧
    clean_srt_to_plain_text (clean_srt_to_plain_text "  hello world \nsecond line") =
      clean_srt_to_plain_text "  hello world \nsecond line" := by
  have h := C9_amended_idempotent_on_plain "  hello world \nsecond line" rfl
  exact ⟨h.1.trans rfl, h.2⟩
